import Mathlib

/-!
Verification development for the gh-worktree repository.

The Go sources are shallowly embedded: strings are Lean `String`s
(sequences of Unicode scalar values, i.e. valid UTF-8, the domain of the
Go code), one Go byte-oriented primitive (`len`) is modelled by UTF-8
byte counts via `Char.utf8Size`, and all stateful interfaces (git
remotes, local branch existence, the git config store, worktree
listings, symlink resolution) are passed explicitly as parameters.
Command batches are `List (List String)`, exactly the `[][]string`
command queues the Go code builds.
-/

set_option maxRecDepth 8192

namespace GhWorktree

/-! ### Go string primitives (character level) -/

/-- Code points with Go's `unicode.IsSpace` (White_Space) property. -/
def goSpaceCodes : List Nat :=
  [0x9, 0xA, 0xB, 0xC, 0xD, 0x20, 0x85, 0xA0, 0x1680,
   0x2000, 0x2001, 0x2002, 0x2003, 0x2004, 0x2005, 0x2006, 0x2007,
   0x2008, 0x2009, 0x200A, 0x2028, 0x2029, 0x202F, 0x205F, 0x3000]

/-- Go `unicode.IsSpace`. -/
def isGoSpace (c : Char) : Bool := goSpaceCodes.contains c.toNat

/-- Drop trailing characters satisfying `p`. -/
def dropTrail (p : Char → Bool) (l : List Char) : List Char :=
  (l.reverse.dropWhile p).reverse

/-- Go `strings.TrimSpace` on a character list. -/
def goTrimChars (l : List Char) : List Char :=
  dropTrail isGoSpace (l.dropWhile isGoSpace)

/-- Go `strings.TrimSpace`. -/
def goTrim (s : String) : String := ⟨goTrimChars s.data⟩

/-- Go `len` of a string: the number of UTF-8 bytes. -/
def goByteLen (s : String) : Nat :=
  s.data.foldr (fun c n => c.utf8Size + n) 0

/-- Go `strings.HasPrefix`. -/
def goHasPrefix (s pre : String) : Bool := pre.data.isPrefixOf s.data

/-- Go `strings.HasSuffix`. -/
def goHasSuffix (s suf : String) : Bool := suf.data.isSuffixOf s.data

/-- Does `pat` occur as a contiguous subsequence of `l`?  (Go
`strings.Contains` on character lists; `[]` occurs in everything.) -/
def containsSeq (pat : List Char) : List Char → Bool
  | [] => pat.isEmpty
  | c :: cs => pat.isPrefixOf (c :: cs) || containsSeq pat cs

/-- Go `strings.Contains`. -/
def goContains (s sub : String) : Bool := containsSeq sub.data s.data

/-- Split `l` around non-overlapping occurrences of `sep`, scanning left
to right — Go `strings.Split` for a non-empty separator.  `fuel` bounds
the recursion; it is in excess whenever `fuel > l.length`. -/
def splitSeqGo (sep : List Char) : Nat → List Char → List (List Char)
  | _, [] => [[]]
  | 0, l => [l]
  | fuel + 1, c :: cs =>
    if sep.isPrefixOf (c :: cs) ∧ sep ≠ [] then
      [] :: splitSeqGo sep fuel ((c :: cs).drop sep.length)
    else
      match splitSeqGo sep fuel cs with
      | [] => [[c]]
      | h :: t => (c :: h) :: t

/-- Go `strings.Split` (for a non-empty separator). -/
def goSplit (s sep : String) : List String :=
  (splitSeqGo sep.data (s.data.length + 1) s.data).map fun l => ⟨l⟩

/-- The value of a non-empty run of decimal digits. -/
def digitsToNat (l : List Char) : Nat :=
  l.foldl (fun acc c => acc * 10 + (c.toNat - 48)) 0

/-- Go `strconv.Atoi`: an optional sign followed by one or more digits,
nothing else.  (64-bit overflow, which Go reports as an error, is not
modelled; every input relevant here is far below the overflow bound.) -/
def goAtoi (s : String) : Option Int :=
  let signed : List Char → Option Int
    | [] => none
    | l => if l.all Char.isDigit then some (Int.ofNat (digitsToNat l)) else none
  match s.data with
  | '+' :: rest => signed rest
  | '-' :: rest => (signed rest).map Int.neg
  | rest => signed rest

/-- Go `fmt.Sscanf(s, "%d", &n)`: skip leading white space, then an
optional sign and one or more digits; trailing input is ignored.
Returns `none` exactly when Go's scan count would be `0`. -/
def goScanInt (s : String) : Option Int :=
  let body := s.data.dropWhile isGoSpace
  let digits : List Char → Option Int := fun l =>
    match l.takeWhile Char.isDigit with
    | [] => none
    | ds => some (Int.ofNat (digitsToNat ds))
  match body with
  | '+' :: rest => digits rest
  | '-' :: rest => (digits rest).map Int.neg
  | rest => digits rest

/-! ### A fragment of Go `net/url.Parse`

`validate.URL` consults only `Scheme`, `User` and `Host` of the parsed
URL.  The model below reproduces Go's scheme extraction, its rejection
of ASCII control characters and of a leading `:`, and the splitting of
an authority into user-info and host.  Percent-escapes in the authority
are not decoded (the repository never produces them; all hosts it
validates are literal).  When Go's parser would reject the authority
(bad user-info or port), `validate.URL` rejects the URL as well, and so
does this model: a present `@` yields a non-`none` user and a host with
a port never equals the bare trusted host, so the accept/reject verdict
agrees. -/

/-- The components of a parsed URL that `validate.URL` inspects. -/
structure URLParts where
  scheme : String
  user : Option String
  host : String
deriving Repr, DecidableEq

/-- An ASCII control byte (Go `net/url` rejects URLs containing one). -/
def isCtlChar (c : Char) : Bool := c.toNat < 0x20 || c.toNat == 0x7F

/-- A character allowed after the first position of a URL scheme. -/
def isSchemeRestChar (c : Char) : Bool :=
  c.isAlpha || c.isDigit || c == '+' || c == '-' || c == '.'

/-- Go `net/url` `getscheme`: text before the first `:` is a scheme when
it starts with a letter and continues with letters, digits, `+`, `-`,
`.`; a leading `:` is an error; otherwise there is no scheme and the
whole input is left in place. -/
def getScheme (l : List Char) : Option (List Char × List Char) :=
  match l.findIdx? (· == ':') with
  | none => some ([], l)
  | some 0 => none
  | some i =>
    match l.take i with
    | [] => none
    | c :: cs =>
      if c.isAlpha && cs.all isSchemeRestChar then
        some ((c :: cs).map Char.toLower, l.drop (i + 1))
      else
        some ([], l)

/-- Split an authority at its last `@` into user-info and host. -/
def splitUserinfo (auth : List Char) : Option (List Char) × List Char :=
  if auth.contains '@' then
    let hostRev := auth.reverse.takeWhile (· ≠ '@')
    (some (auth.take (auth.length - hostRev.length - 1)), hostRev.reverse)
  else
    (none, auth)

/-- The modelled fragment of Go `net/url.Parse`. -/
def parseURL (s : String) : Option URLParts :=
  if s.data.any isCtlChar then none
  else
    match getScheme s.data with
    | none => none
    | some (scheme, rest) =>
      match rest with
      | '/' :: '/' :: afterSlashes =>
        let auth := afterSlashes.takeWhile fun c => c ≠ '/' && c ≠ '?' && c ≠ '#'
        let (user, host) := splitUserinfo auth
        some ⟨⟨scheme⟩, user.map (⟨·⟩), ⟨host⟩⟩
      | _ => some ⟨⟨scheme⟩, none, ""⟩

namespace validate

/-- A character matched by the Go branch-name regexp: a letter, a
digit, `.`, `_`, `/` or `-`. -/
def isBranchNameChar (c : Char) : Bool :=
  c.isAlpha || c.isDigit || c == '.' || c == '_' || c == '/' || c == '-'

/-- A character matched by the Go regexp `[a-zA-Z0-9._-]`. -/
def isRepoNameChar (c : Char) : Bool :=
  c.isAlpha || c.isDigit || c == '.' || c == '_' || c == '-'

/-- `validBranchName.MatchString`: the whole string is a non-empty run
of branch-name characters (the regexp is anchored on both sides). -/
def matchesBranchName (s : String) : Bool :=
  !s.data.isEmpty && s.data.all isBranchNameChar

/-- `validRepoName.MatchString`, for the anchored regexp
`^[a-zA-Z0-9._-]+$`. -/
def matchesRepoName (s : String) : Bool :=
  !s.data.isEmpty && s.data.all isRepoNameChar

/-- The characters `strings.ReplaceAll` deletes in
`SanitizeForGitConfig`: `; & | `` ` `` $ ( ) < > ' " \`.
(Written by code point to keep the source list verbatim.) -/
def shellSpecialCodes : List Nat :=
  [0x3B, 0x26, 0x7C, 0x60, 0x24, 0x28, 0x29, 0x3C, 0x3E, 0x27, 0x22, 0x5C]

/-- Is `c` one of the deleted shell-special characters? -/
def isShellSpecial (c : Char) : Bool := shellSpecialCodes.contains c.toNat

/-- Is `c` one of `\n`, `\r`, `\t` (each replaced by a space)? -/
def isNlCrTab (c : Char) : Bool := c == '\n' || c == '\r' || c == '\t'

/-- The character-list core of `SanitizeForGitConfig`: remove NUL bytes,
replace `\n`/`\r`/`\t` by spaces, remove the shell-special characters,
then trim.  (Each Go `strings.ReplaceAll` here has a one-character
pattern, so it acts character-wise.) -/
def sanitizeChars (l : List Char) : List Char :=
  goTrimChars
    (((l.filter fun c => c ≠ Char.ofNat 0).map fun c =>
        if isNlCrTab c then ' ' else c).filter fun c => !isShellSpecial c)

/-- `validate.SanitizeForGitConfig`. -/
def SanitizeForGitConfig (value : String) : String := ⟨sanitizeChars value.data⟩

/-- `validate.BranchName`. -/
def BranchName (name : String) : Except String Unit :=
  if name = "" then .error "branch name cannot be empty"
  else if 255 < goByteLen name then .error "branch name too long"
  else if !matchesBranchName name then
    .error "invalid branch name: contains unsafe characters"
  else if goHasPrefix name "-" || goHasSuffix name "/" then
    .error "invalid branch name format"
  else .ok ()

/-- `validate.RepoName`. -/
def RepoName (name : String) : Except String Unit :=
  if name = "" then .error "repository name cannot be empty"
  else if 100 < goByteLen name then .error "repository name too long"
  else if goContains name ".." then
    .error "repository name contains path traversal"
  else if !matchesRepoName name then
    .error "invalid repository name: contains unsafe characters"
  else .ok ()

/-- `validate.PRNumber`. -/
def PRNumber (prNumber : Int) : Except String Unit :=
  if prNumber ≤ 0 ∨ 999999 < prNumber then
    .error ("invalid PR number: " ++ toString prNumber)
  else .ok ()

/-- `validate.URL`. -/
def URL (urlStr : String) : Except String Unit :=
  if urlStr = "" then .error "URL cannot be empty"
  else
    match parseURL urlStr with
    | none => .error "invalid URL format"
    | some u =>
      if u.scheme ≠ "https" then .error "only HTTPS URLs are allowed"
      else if u.user.isSome then .error "URL cannot contain credentials"
      else if u.host ≠ "github.com" then .error "only github.com URLs are allowed"
      else .ok ()

end validate

namespace github

/-- `github.PullRequest` (the fields the program reads, flattened from
the nested JSON structs). -/
structure PullRequest where
  number : Int
  title : String
  headRef : String
  headRepoName : String
  headOwnerLogin : String
  baseRepoFullName : String
  maintainerCanModify : Bool
deriving Repr, DecidableEq

/-- The `strconv.Atoi` + `validate.PRNumber` step `ParsePRNumber` runs
on both the URL tail and the bare selector. -/
def checkedPR (errMsg : String) (parsed : Option Int) : Except String Int :=
  match parsed with
  | none => .error errMsg
  | some n =>
    match validate.PRNumber n with
    | .error e => .error e
    | .ok _ => .ok n

/-- `github.ParsePRNumber`: a selector is either a bare integer or a
GitHub pull-request URL. -/
def ParsePRNumber (selector : String) : Except String Int :=
  if goContains selector "/pull/" then
    match validate.URL selector with
    | .error e => .error ("invalid URL: " ++ e)
    | .ok _ =>
      match goSplit selector "/pull/" with
      | [_, numPart] => checkedPR "invalid PR number in URL" (goAtoi (goTrim numPart))
      | _ => .error "invalid PR URL format"
  else
    checkedPR "invalid PR number format" (goAtoi (goTrim selector))

end github

namespace git

/-- `git.Remote`. -/
structure Remote where
  name : String
  url : String
deriving Repr, DecidableEq

end git

namespace worktree

/-- `worktree.CheckoutOptions` (ShellMode lives at the CLI layer and
never reaches the synthesizer). -/
structure CheckoutOptions where
  recurseSubmodules : Bool
  force : Bool
  detach : Bool
  branchName : String
deriving Repr, DecidableEq

/-- `Creator.findBaseRemote`: prefer `upstream`, then `origin`, then the
first configured remote. -/
def findBaseRemote (remotes : List git.Remote) : Option git.Remote :=
  match remotes.find? fun r => r.name == "upstream" with
  | some r => some r
  | none =>
    match remotes.find? fun r => r.name == "origin" with
    | some r => some r
    | none => remotes.head?

/-- `Creator.findHeadRemote`: the first remote whose URL contains both
the head owner and the head repository name as substrings. -/
def findHeadRemote (remotes : List git.Remote) (pr : github.PullRequest) :
    Option git.Remote :=
  remotes.find? fun r =>
    goContains r.url pr.headOwnerLogin && goContains r.url pr.headRepoName

/-- `Creator.cmdsForExistingRemote`.  `branchExists` stands for
`git.BranchExists`, the one repository query this function makes. -/
def cmdsForExistingRemote (branchExists : String → Bool) (remote : git.Remote)
    (pr : github.PullRequest) (opts : CheckoutOptions)
    (worktreePath branchName : String) : Except String (List (List String)) :=
  match validate.BranchName pr.headRef with
  | .error e => .error ("invalid head ref: " ++ e)
  | .ok _ =>
  match validate.BranchName branchName with
  | .error e => .error ("invalid branch name: " ++ e)
  | .ok _ =>
    let remoteBranch := remote.name ++ "/" ++ pr.headRef
    let refSpec :=
      if opts.detach then "+refs/heads/" ++ pr.headRef
      else "+refs/heads/" ++ pr.headRef ++ ":refs/remotes/" ++ remoteBranch
    let fetch := ["fetch", remote.name, refSpec, "--no-tags"]
    if opts.detach then
      .ok [fetch, ["worktree", "add", "--detach", worktreePath, "FETCH_HEAD"]]
    else if branchExists branchName then
      if opts.force then
        .ok [fetch,
             ["worktree", "add", "--force", worktreePath, branchName],
             ["-C", worktreePath, "reset", "--hard", "refs/remotes/" ++ remoteBranch]]
      else
        .ok [fetch,
             ["worktree", "add", worktreePath, branchName],
             ["-C", worktreePath, "merge", "--ff-only", "refs/remotes/" ++ remoteBranch]]
    else
      .ok [fetch,
           ["worktree", "add", "-b", branchName, worktreePath, remoteBranch],
           ["-C", worktreePath, "config", "branch." ++ branchName ++ ".remote", remote.name],
           ["-C", worktreePath, "config", "branch." ++ branchName ++ ".merge",
            "refs/heads/" ++ pr.headRef]]

/-- `Creator.cmdsForMissingRemote`. -/
def cmdsForMissingRemote (pr : github.PullRequest) (baseRemote : git.Remote)
    (opts : CheckoutOptions) (worktreePath branchName : String) :
    Except String (List (List String)) :=
  match validate.PRNumber pr.number with
  | .error e => .error ("invalid PR number: " ++ e)
  | .ok _ =>
  match validate.BranchName branchName with
  | .error e => .error ("invalid branch name: " ++ e)
  | .ok _ =>
  match validate.BranchName pr.headRef with
  | .error e => .error ("invalid head ref: " ++ e)
  | .ok _ =>
    let ref := "refs/pull/" ++ toString pr.number ++ "/head"
    if opts.detach then
      .ok [["fetch", baseRemote.name, ref, "--no-tags"],
           ["worktree", "add", "--detach", worktreePath, "FETCH_HEAD"]]
    else
      let fetchCmd :=
        if opts.force then
          ["fetch", baseRemote.name, ref ++ ":" ++ branchName, "--no-tags", "--force"]
        else
          ["fetch", baseRemote.name, ref ++ ":" ++ branchName, "--no-tags"]
      if pr.maintainerCanModify && pr.headRepoName != "" then
        match validate.RepoName pr.headRepoName with
        | .error e => .error ("invalid head repo name: " ++ e)
        | .ok _ =>
        match validate.RepoName pr.headOwnerLogin with
        | .error e => .error ("invalid head repo owner: " ++ e)
        | .ok _ =>
          let pushRemote :=
            "https://github.com/" ++ pr.headOwnerLogin ++ "/" ++ pr.headRepoName
          match validate.URL pushRemote with
          | .error e => .error ("invalid push remote URL: " ++ e)
          | .ok _ =>
            .ok [fetchCmd,
                 ["worktree", "add", worktreePath, branchName],
                 ["-C", worktreePath, "config",
                  "branch." ++ branchName ++ ".pushRemote", pushRemote],
                 ["-C", worktreePath, "config",
                  "branch." ++ branchName ++ ".remote", baseRemote.name],
                 ["-C", worktreePath, "config",
                  "branch." ++ branchName ++ ".merge", "refs/heads/" ++ pr.headRef]]
      else
        .ok [fetchCmd,
             ["worktree", "add", worktreePath, branchName],
             ["-C", worktreePath, "config",
              "branch." ++ branchName ++ ".remote", baseRemote.name],
             ["-C", worktreePath, "config",
              "branch." ++ branchName ++ ".merge", ref]]

/-- `Creator.storePRMetadata`, as the branch-scoped key/value pairs it
writes via `git.SetConfig` (in write order) once its validations pass. -/
def storePRMetadata (pr : github.PullRequest) :
    Except String (List (String × String)) :=
  match validate.BranchName pr.headRef with
  | .error e => .error ("invalid branch name: " ++ e)
  | .ok _ =>
  match validate.PRNumber pr.number with
  | .error e => .error ("invalid PR number: " ++ e)
  | .ok _ =>
    .ok [("branch." ++ pr.headRef ++ ".gh-worktree-pr-number", toString pr.number),
         ("branch." ++ pr.headRef ++ ".gh-worktree-pr-title",
          validate.SanitizeForGitConfig pr.title)]

/-- The branch name `Creator.Create` checks out: the PR's head ref,
unless overridden by the `BranchName` option. -/
def effectiveBranchName (pr : github.PullRequest) (opts : CheckoutOptions) : String :=
  if opts.branchName == "" then pr.headRef else opts.branchName

/-- The head-remote resolution inside `Creator.Create`: for a
cross-repository PR search the configured remotes, otherwise the base
remote itself serves as head remote. -/
def resolveHeadRemote (remotes : List git.Remote) (repoOwner : String)
    (pr : github.PullRequest) (baseRemote : git.Remote) : Option git.Remote :=
  if pr.headOwnerLogin != repoOwner then findHeadRemote remotes pr
  else some baseRemote

/-- The dispatch inside `Creator.Create` between the two synthesis
branches, once a base remote is known. -/
def cmdQueueFor (remotes : List git.Remote) (repoOwner : String)
    (branchExists : String → Bool) (worktreePath : String)
    (pr : github.PullRequest) (opts : CheckoutOptions)
    (baseRemote : git.Remote) : Except String (List (List String)) :=
  match resolveHeadRemote remotes repoOwner pr baseRemote with
  | some r =>
    match cmdsForExistingRemote branchExists r pr opts worktreePath
        (effectiveBranchName pr opts) with
    | .error e => .error ("failed to create commands for existing remote: " ++ e)
    | .ok cmds => .ok cmds
  | none =>
    match cmdsForMissingRemote pr baseRemote opts worktreePath
        (effectiveBranchName pr opts) with
    | .error e => .error ("failed to create commands for missing remote: " ++ e)
    | .ok cmds => .ok cmds

/-- The two commands appended by `Create` under `RecurseSubmodules`. -/
def submoduleCmds : List (List String) :=
  [["submodule", "sync", "--recursive"],
   ["submodule", "update", "--init", "--recursive"]]

/-- `Creator.Create` as a pure function: from the configured remotes
(`Creator.remotes`), the current repository owner (`Creator.repo.Owner`),
the branch-existence oracle and the inputs, produce the command batch
passed to `git.ExecuteCommands` together with the branch-scoped metadata
written by `storePRMetadata` after the batch succeeds.  An `.error`
result is any of Create's failure returns; execution of the batch itself
is the gateway's effect and not modelled. -/
def Create (remotes : List git.Remote) (repoOwner : String)
    (branchExists : String → Bool) (worktreePath : String)
    (pr : github.PullRequest) (opts : CheckoutOptions) :
    Except String (List (List String) × List (String × String)) :=
  match findBaseRemote remotes with
  | none => .error "no suitable remote found"
  | some baseRemote =>
    match cmdQueueFor remotes repoOwner branchExists worktreePath pr opts baseRemote with
    | .error e => .error e
    | .ok cmds =>
      match storePRMetadata pr with
      | .error e => .error ("failed to store PR metadata: " ++ e)
      | .ok meta =>
        .ok (if opts.recurseSubmodules then cmds ++ submoduleCmds else cmds, meta)

end worktree

namespace git

/-- The repository's branch-scoped configuration store.  `branch.*`
configuration lives in the shared repository config, so one store
serves every worktree path; the `path` argument of `git.GetConfig` /
`git.SetConfig` is therefore dropped from the model. -/
abbrev ConfigStore := List (String × String)

/-- The raw value stored under `key`, if any. -/
def lookupConfig (store : ConfigStore) (key : String) : Option String :=
  (store.find? fun kv => kv.1 == key).map fun kv => kv.2

/-- `git.GetConfig`: runs `git config --local key` and trims the output;
a missing key is the error case, `none`. -/
def GetConfig (store : ConfigStore) (key : String) : Option String :=
  (lookupConfig store key).map goTrim

/-- `git.SetConfig`: store `value` under `key`, replacing any previous
value. -/
def SetConfig (store : ConfigStore) (key value : String) : ConfigStore :=
  (key, value) :: store.filter fun kv => kv.1 != key

end git

namespace worktree

/-- The branch-scoped key `branch.<name>.gh-worktree-type`. -/
def typeKey (branchName : String) : String :=
  "branch." ++ branchName ++ ".gh-worktree-type"

/-- The branch-scoped key `branch.<name>.gh-worktree-pr-number`. -/
def prNumberKey (branchName : String) : String :=
  "branch." ++ branchName ++ ".gh-worktree-pr-number"

/-- The branch-scoped key `branch.<name>.gh-worktree-pr-title`. -/
def prTitleKey (branchName : String) : String :=
  "branch." ++ branchName ++ ".gh-worktree-pr-title"

/-- `worktree.GetWorktreeType`: the persisted type if the type key is
set; else `"pr"` when a non-empty PR-number key is present; else `""`. -/
def GetWorktreeType (store : git.ConfigStore) (branchName : String) : String :=
  match git.GetConfig store (typeKey branchName) with
  | some v => goTrim v
  | none =>
    match git.GetConfig store (prNumberKey branchName) with
    | some prNumber => if prNumber ≠ "" then "pr" else ""
    | none => ""

/-- `worktree.PromoteToPR`: write the three metadata keys, in the same
order as the source. -/
def PromoteToPR (store : git.ConfigStore) (branchName : String)
    (prNumber : Int) (prTitle : String) : git.ConfigStore :=
  git.SetConfig
    (git.SetConfig
      (git.SetConfig store (typeKey branchName) "pr")
      (prNumberKey branchName) (toString prNumber))
    (prTitleKey branchName) prTitle

/-- `main.promoteRun` for an explicitly supplied (non-zero) PR number.
The two GitHub REST calls it makes (looking up an omitted PR number and
fetching the PR's title) are external collaborators; `prTitle` stands
for the fetched title. -/
def promoteRun (store : git.ConfigStore) (branchName : String)
    (prNumber : Int) (prTitle : String) : Except String git.ConfigStore :=
  match validate.BranchName branchName with
  | .error e => .error ("invalid branch name: " ++ e)
  | .ok _ =>
    if GetWorktreeType store branchName == "pr" then
      .error ("branch " ++ branchName ++ " is already a PR worktree")
    else
      .ok (PromoteToPR store branchName prNumber prTitle)

/-- `worktree.Info`. -/
structure Info where
  path : String
  commit : String
  branch : String
  prNumber : Int
  title : String
deriving Repr, DecidableEq

/-- Go `filepath.Base`, modelled for the paths the program compares:
clean absolute slash-separated paths. -/
def goBase (p : String) : String :=
  ⟨(p.data.reverse.takeWhile (· ≠ '/')).reverse⟩

/-- Go `filepath.Dir`, modelled for clean absolute slash-separated
paths of depth at least two (the program only compares parents of
repository checkouts, e.g. `/home/user/repo`). -/
def goDir (p : String) : String :=
  ⟨((p.data.reverse.dropWhile (· ≠ '/')).drop 1).reverse⟩

/-- `filepath.EvalSymlinks` with the source's fallback: when resolution
fails (`none`), use the unresolved path. -/
def resolveDir (resolve : String → Option String) (p : String) : String :=
  match resolve p with
  | some q => q
  | none => p

/-- `worktree.GetPRTitle`: the persisted title, or `""` when the branch
is unnamed or the key is missing. -/
def GetPRTitle (store : git.ConfigStore) (branchName : String) : String :=
  if branchName = "" then ""
  else
    match git.GetConfig store (prTitleKey branchName) with
    | some title => title
    | none => ""

/-- The `repo-pr###` naming test shared by both listing functions:
the basename extends `<repoName>-pr` and `fmt.Sscanf(suffix, "%d", _)`
scans a number. -/
def scanPRSuffix (repoName baseName : String) : Option Int :=
  if goHasPrefix baseName (repoName ++ "-pr") ∧
      (repoName ++ "-pr").data.length < baseName.data.length then
    goScanInt ⟨baseName.data.drop (repoName ++ "-pr").data.length⟩
  else
    none

/-- The PR-number enrichment at the end of the `ListPRWorktrees` loop:
when the naming convention produced no number (it is still `0`), fall
back to the persisted `gh-worktree-pr-number` value. -/
def enrichedPRNumber (store : git.ConfigStore) (wt : Info) (prNumber : Int) : Int :=
  if prNumber == 0 then
    match git.GetConfig store (prNumberKey wt.branch) with
    | some s =>
      if s ≠ "" then
        match goAtoi (goTrim s) with
        | some n => n
        | none => prNumber
      else prNumber
    | none => prNumber
  else prNumber

/-- The loop body of `worktree.ListPRWorktrees` (Go locals inlined):
skip the main worktree and worktrees outside the main worktree's
parent; keep a worktree that is PR-named or PR-typed, enriched with its
PR number and title. -/
def prInfoFor (resolve : String → Option String) (store : git.ConfigStore)
    (gitRoot repoName : String) (wt : Info) : Option Info :=
  if wt.path == gitRoot then none
  else if resolveDir resolve (goDir wt.path) !=
      resolveDir resolve (goDir gitRoot) then none
  else if (scanPRSuffix repoName (goBase wt.path)).isSome ||
      GetWorktreeType store wt.branch == "pr" then
    some { wt with
      prNumber := enrichedPRNumber store wt
        ((scanPRSuffix repoName (goBase wt.path)).getD 0),
      title := GetPRTitle store wt.branch }
  else none

/-- `worktree.ListPRWorktrees`, over an explicit worktree enumeration
(`worktree.List`'s parse of `git worktree list --porcelain`), symlink
resolver and config store. -/
def ListPRWorktrees (resolve : String → Option String) (store : git.ConfigStore)
    (gitRoot repoName : String) (worktrees : List Info) : List Info :=
  worktrees.filterMap (prInfoFor resolve store gitRoot repoName)

/-- The loop body of `worktree.ListBranchWorktrees` (Go locals
inlined): skip the main worktree and PR-named worktrees; keep a
worktree under the main worktree's parent whose basename extends
`<repoName>-` when its persisted type is `branch` or unset. -/
def branchInfoFor (resolve : String → Option String) (store : git.ConfigStore)
    (gitRoot repoName : String) (wt : Info) : Option Info :=
  if wt.path == gitRoot then none
  else if (scanPRSuffix repoName (goBase wt.path)).isSome then none
  else if goHasPrefix (goBase wt.path) (repoName ++ "-") &&
      resolveDir resolve (goDir wt.path) == resolveDir resolve (goDir gitRoot) then
    if GetWorktreeType store wt.branch == "branch" ||
        GetWorktreeType store wt.branch == "" then some wt
    else none
  else none

/-- `worktree.ListBranchWorktrees`. -/
def ListBranchWorktrees (resolve : String → Option String) (store : git.ConfigStore)
    (gitRoot repoName : String) (worktrees : List Info) : List Info :=
  worktrees.filterMap (branchInfoFor resolve store gitRoot repoName)

/-- Does `cmd` have the shape of a worktree-scoped `git config` write
for exactly the key `key`, i.e. `git -C <path> config <key> <value>`? -/
def isConfigCmd (key : String) (cmd : List String) : Bool :=
  match cmd with
  | [dashC, _, config, k, _] => dashC == "-C" && config == "config" && k == key
  | _ => false

/-- How many commands of the batch write the config key `key`. -/
def cfgCount (key : String) (cmds : List (List String)) : Nat :=
  (cmds.filter (isConfigCmd key)).length

/-- Does `cmd` write any branch-tracking configuration key, i.e. a
config key of the form `branch.*.remote`, `branch.*.pushRemote` or
`branch.*.merge`? -/
def isTrackingCfgCmd (cmd : List String) : Bool :=
  match cmd with
  | [dashC, _, config, k, _] =>
    dashC == "-C" && config == "config" && goHasPrefix k "branch." &&
      (goHasSuffix k ".remote" || goHasSuffix k ".merge")
  | _ => false

/-- Does the batch contain any branch-tracking configuration command? -/
def hasTrackingCfg (cmds : List (List String)) : Bool :=
  cmds.any isTrackingCfgCmd

end worktree

/-! ### Sample inputs used to instantiate the theorems -/

/-- A same-repository pull request. -/
def samplePR : github.PullRequest :=
  { number := 1, title := "Example title", headRef := "feature",
    headRepoName := "repo", headOwnerLogin := "owner",
    baseRepoFullName := "owner/repo", maintainerCanModify := false }

/-- A fork pull request whose author allows maintainer edits. -/
def sampleForkPR : github.PullRequest :=
  { number := 7, title := "Fix", headRef := "fix",
    headRepoName := "repo", headOwnerLogin := "alice",
    baseRepoFullName := "owner/repo", maintainerCanModify := true }

/-- Default options. -/
def plainOpts : worktree.CheckoutOptions :=
  { recurseSubmodules := false, force := false, detach := false, branchName := "" }

/-- Options with `--detach`. -/
def detachOpts : worktree.CheckoutOptions :=
  { recurseSubmodules := false, force := false, detach := true, branchName := "" }

/-- Options with an overriding branch name. -/
def renameOpts : worktree.CheckoutOptions :=
  { recurseSubmodules := false, force := false, detach := false,
    branchName := "local-name" }

/-- An `origin` remote for the base repository. -/
def originRemote : git.Remote := { name := "origin", url := "https://github.com/owner/repo.git" }

/-- An `upstream` remote. -/
def upstreamRemote : git.Remote := { name := "upstream", url := "https://github.com/up/repo.git" }

/-- The main worktree of a repository checked out at
`/home/u/my-repo`. -/
def mainWorktreeInfo : worktree.Info :=
  { path := "/home/u/my-repo", commit := "c0", branch := "main",
    prNumber := 0, title := "" }

/-- A sibling worktree following the `<repo>-pr<digits>` convention. -/
def prNamedWorktreeInfo : worktree.Info :=
  { path := "/home/u/my-repo-pr42", commit := "c1", branch := "b42",
    prNumber := 0, title := "" }

/-- A sibling worktree whose basename extends `<repo>-pr` with text
that is not a pure digit string but still scans as a number (`5x`). -/
def oddNamedWorktreeInfo : worktree.Info :=
  { path := "/home/u/my-repo-pr5x", commit := "c2", branch := "b5",
    prNumber := 0, title := "" }

/-- A sibling worktree named `<repo>-<branch>`. -/
def branchNamedWorktreeInfo : worktree.Info :=
  { path := "/home/u/my-repo-feature-x", commit := "c3", branch := "feature-x",
    prNumber := 0, title := "" }

/-! ## Supporting lemmas -/

theorem beq_string_false {a b : String} (h : a ≠ b) : (a == b) = false :=
  beq_eq_false_iff_ne.mpr h

/-- A branch-name character is ASCII, hence a single UTF-8 byte. -/
theorem utf8Size_of_isBranchNameChar (c : Char)
    (h : validate.isBranchNameChar c = true) : c.utf8Size = 1 := by
  have hle : c.val ≤ 127 := by
    simp only [validate.isBranchNameChar, Char.isAlpha, Char.isUpper, Char.isLower,
      Char.isDigit, Bool.or_eq_true, decide_eq_true_eq, Bool.and_eq_true,
      beq_iff_eq] at h
    rcases h with (((((⟨h1, h2⟩ | ⟨h1, h2⟩) | ⟨h1, h2⟩) | rfl) | rfl) | rfl) | rfl
    · exact UInt32.le_trans h2 (by decide)
    · exact UInt32.le_trans h2 (by decide)
    · exact UInt32.le_trans h2 (by decide)
    · decide
    · decide
    · decide
    · decide
  simp only [Char.utf8Size]
  split
  · rfl
  · exact absurd hle (by assumption)

/-- On lists of branch-name characters, the UTF-8 byte count is the
character count. -/
theorem utf8Len_eq_length (l : List Char)
    (h : ∀ c ∈ l, validate.isBranchNameChar c = true) :
    l.foldr (fun c n => c.utf8Size + n) 0 = l.length := by
  induction l with
  | nil => rfl
  | cons c cs ih =>
    rw [List.foldr_cons, utf8Size_of_isBranchNameChar c (h c (by simp)),
      ih fun x hx => h x (by simp [hx]), List.length_cons]
    omega

/-- On strings of branch-name characters, Go's byte length is the
character count. -/
theorem goByteLen_eq_length_of_branchChars (s : String)
    (h : s.data.all validate.isBranchNameChar = true) :
    goByteLen s = s.length :=
  utf8Len_eq_length s.data (List.all_eq_true.mp h)

/-- A one-character prefix test inspects exactly the first character. -/
theorem isPrefixOf_singleton (a : Char) (l : List Char) :
    List.isPrefixOf [a] l = true ↔ l.head? = some a := by
  rw [ List.isPrefixOf_iff_prefix]
  cases l with
  | nil => simp
  | cons c cs => simp [List.cons_prefix_cons, eq_comm]

/-- `goHasPrefix s "-"` inspects exactly the first character. -/
theorem goHasPrefix_dash (s : String) :
    goHasPrefix s "-" = true ↔ s.data.head? = some '-' :=
  isPrefixOf_singleton '-' s.data

/-- `goHasSuffix s "/"` inspects exactly the last character. -/
theorem goHasSuffix_slash (s : String) :
    goHasSuffix s "/" = true ↔ s.data.getLast? = some '/' := by
  show List.isPrefixOf ['/'] s.data.reverse = true ↔ _
  rw [isPrefixOf_singleton '/' s.data.reverse, List.head?_reverse]

/-! ## C8 -/

/-- C8: the branch-name validator accepts exactly the non-empty strings
of at most 255 characters consisting only of letters, digits, `.`, `_`,
`/`, `-`, that do not start with `-` and do not end with `/`. -/
theorem C8_branch_name_validator (s : String) :
    validate.BranchName s = .ok () ↔
      (s ≠ "" ∧ s.length ≤ 255 ∧ s.data.all validate.isBranchNameChar = true ∧
       s.data.head? ≠ some '-' ∧ s.data.getLast? ≠ some '/') := by
  unfold validate.BranchName
  split_ifs with h1 h2 h3 h4
  · simp [h1]
  · simp only [false_iff, reduceCtorEq]
    rintro ⟨hne, hlen, hall, -, -⟩
    rw [goByteLen_eq_length_of_branchChars s hall] at h2
    omega
  · simp only [false_iff, reduceCtorEq]
    rintro ⟨hne, -, hall, -, -⟩
    have : validate.matchesBranchName s = true := by
      unfold validate.matchesBranchName
      have : s.data ≠ [] := fun hnil => hne (String.ext_iff.mpr (by simp [hnil]))
      simp [this, hall]
    simp [this] at h3
  · simp only [false_iff, reduceCtorEq]
    rintro ⟨-, -, -, hpre, hsuf⟩
    rcases Bool.or_eq_true _ _ |>.mp h4 with h | h
    · exact hpre ((goHasPrefix_dash s).mp h)
    · exact hsuf ((goHasSuffix_slash s).mp h)
  · simp only [true_iff]
    rw [Bool.not_eq_true] at h3
    have hmatch : validate.matchesBranchName s = true := by
      revert h3
      unfold validate.matchesBranchName
      cases hm : (!s.data.isEmpty && s.data.all validate.isBranchNameChar) <;> simp_all
    have hall : s.data.all validate.isBranchNameChar = true := by
      unfold validate.matchesBranchName at hmatch
      exact (Bool.and_eq_true _ _ |>.mp hmatch).2
    refine ⟨h1, ?_, hall, ?_, ?_⟩
    · rw [← goByteLen_eq_length_of_branchChars s hall]; omega
    · intro hhead
      have := (goHasPrefix_dash s).mpr hhead
      simp [this] at h4
    · intro hlast
      have := (goHasSuffix_slash s).mpr hlast
      simp [this] at h4

/-! ## C9 -/

theorem dropWhile_dropWhile (p : Char → Bool) (l : List Char) :
    (l.dropWhile p).dropWhile p = l.dropWhile p := by
  induction l with
  | nil => rfl
  | cons c cs ih =>
    by_cases hc : p c = true
    · simp [List.dropWhile_cons, hc, ih]
    · simp [List.dropWhile_cons, hc]

theorem dropTrail_dropTrail (p : Char → Bool) (l : List Char) :
    dropTrail p (dropTrail p l) = dropTrail p l := by
  unfold dropTrail
  rw [List.reverse_reverse, dropWhile_dropWhile]

/-- A list whose head survives `dropWhile p` keeps surviving after its
tail is trimmed. -/
theorem dropWhile_dropTrail (p : Char → Bool) (l : List Char)
    (h : l.dropWhile p = l) : (dropTrail p l).dropWhile p = dropTrail p l := by
  have hpre : dropTrail p l <+: l := by
    rw [← List.reverse_suffix]
    simp only [dropTrail, List.reverse_reverse]
    exact List.dropWhile_suffix p
  cases hd : dropTrail p l with
  | nil => rfl
  | cons c cs =>
    rw [hd] at hpre
    obtain ⟨t, ht⟩ := hpre
    have hl : l = c :: (cs ++ t) := ht.symm
    have hpc : p c = false := by
      by_contra hpc
      rw [Bool.not_eq_false] at hpc
      have hlen := congrArg List.length h
      rw [hl, List.dropWhile_cons, if_pos hpc] at hlen
      have hle : (List.dropWhile p (cs ++ t)).length ≤ (cs ++ t).length :=
        (List.dropWhile_sublist p).length_le
      rw [List.length_cons] at hlen
      omega
    simp [List.dropWhile_cons, hpc]

theorem goTrimChars_idem (l : List Char) :
    goTrimChars (goTrimChars l) = goTrimChars l := by
  unfold goTrimChars
  rw [dropWhile_dropTrail isGoSpace _ (dropWhile_dropWhile isGoSpace l),
    dropTrail_dropTrail]

theorem mem_of_mem_dropTrail {c : Char} {p : Char → Bool} {l : List Char}
    (h : c ∈ dropTrail p l) : c ∈ l := by
  unfold dropTrail at h
  rw [List.mem_reverse] at h
  exact List.mem_reverse.mp ((List.dropWhile_sublist p).mem h)

theorem mem_of_mem_goTrimChars {c : Char} {l : List Char}
    (h : c ∈ goTrimChars l) : c ∈ l :=
  (List.dropWhile_sublist isGoSpace).mem (mem_of_mem_dropTrail h)

/-- Characters of a sanitized string are never NUL, never one of the
collapsed whitespace characters `\n`/`\r`/`\t`, and never
shell-special. -/
theorem sanitizeChars_chars (l : List Char) (c : Char)
    (hc : c ∈ validate.sanitizeChars l) :
    c ≠ Char.ofNat 0 ∧ validate.isNlCrTab c = false ∧
      validate.isShellSpecial c = false := by
  unfold validate.sanitizeChars at hc
  have hc2 := mem_of_mem_goTrimChars hc
  have hspecial : validate.isShellSpecial c = false := by
    have := List.of_mem_filter hc2
    simpa using this
  have hc3 := (List.mem_filter.mp hc2).1
  obtain ⟨a, ha, hfa⟩ := List.mem_map.mp hc3
  have hanull : a ≠ Char.ofNat 0 := by
    have := List.of_mem_filter ha
    simpa using this
  by_cases hnl : validate.isNlCrTab a = true
  · rw [if_pos hnl] at hfa
    subst hfa
    exact ⟨by decide, by decide, hspecial⟩
  · rw [if_neg hnl] at hfa
    subst hfa
    exact ⟨hanull, Bool.not_eq_true _ |>.mp hnl, hspecial⟩

theorem sanitizeChars_idem (l : List Char) :
    validate.sanitizeChars (validate.sanitizeChars l) = validate.sanitizeChars l := by
  have hfilter0 :
      (validate.sanitizeChars l).filter (fun c => c ≠ Char.ofNat 0) =
        validate.sanitizeChars l :=
    List.filter_eq_self.mpr fun a ha => by
      simpa using (sanitizeChars_chars l a ha).1
  have hmap :
      (validate.sanitizeChars l).map
          (fun c => if validate.isNlCrTab c then ' ' else c) =
        validate.sanitizeChars l := by
    rw [show validate.sanitizeChars l =
        (validate.sanitizeChars l).map id from (List.map_id _).symm]
    rw [List.map_map]
    exact List.map_congr_left fun a ha => by
      simp [(sanitizeChars_chars l a (by simpa using ha)).2.1]
  have hfilterS :
      (validate.sanitizeChars l).filter (fun c => !validate.isShellSpecial c) =
        validate.sanitizeChars l :=
    List.filter_eq_self.mpr fun a ha => by
      simp [(sanitizeChars_chars l a ha).2.2]
  have hexp : ∀ x : List Char, validate.sanitizeChars x =
      goTrimChars (((x.filter fun c => c ≠ Char.ofNat 0).map fun c =>
        if validate.isNlCrTab c then ' ' else c).filter
          fun c => !validate.isShellSpecial c) := fun _ => rfl
  rw [hexp (validate.sanitizeChars l), hfilter0, hmap, hfilterS,
    hexp l, goTrimChars_idem]

/-- C9: the title sanitizer is idempotent. -/
theorem C9_sanitizer_idempotent (s : String) :
    validate.SanitizeForGitConfig (validate.SanitizeForGitConfig s) =
      validate.SanitizeForGitConfig s := by
  unfold validate.SanitizeForGitConfig
  exact congrArg String.mk (sanitizeChars_idem s.data)

/-! ## Config-key disjointness -/

theorem append_right_ne {p a b : String} (h : a ≠ b) : p ++ a ≠ p ++ b := by
  intro hc
  have hd := String.ext_iff.mp hc
  rw [String.data_append, String.data_append] at hd
  exact h (String.ext_iff.mpr (List.append_cancel_left hd))

theorem append_left_ne {s a b : String} (h : a ≠ b) : a ++ s ≠ b ++ s := by
  intro hc
  have hd := String.ext_iff.mp hc
  rw [String.data_append, String.data_append] at hd
  exact h (String.ext_iff.mpr (List.append_cancel_right hd))

/-- Branch-scoped keys with the same branch name but different suffixes
differ. -/
theorem key_suffix_ne (n : String) {s₁ s₂ : String} (h : s₁ ≠ s₂) :
    "branch." ++ n ++ s₁ ≠ "branch." ++ n ++ s₂ :=
  append_right_ne h

/-- Branch-scoped keys with the same suffix but different branch names
differ. -/
theorem key_branch_ne {a b : String} (s : String) (h : a ≠ b) :
    "branch." ++ a ++ s ≠ "branch." ++ b ++ s :=
  append_left_ne (append_right_ne h)

/-- A PR-number key never equals a PR-title key, whatever the branch
names. -/
theorem prNumberKey_ne_prTitleKey (a b : String) :
    worktree.prNumberKey a ≠ worktree.prTitleKey b := by
  intro hc
  have hd := String.ext_iff.mp hc
  simp only [worktree.prNumberKey, worktree.prTitleKey, String.data_append] at hd
  have h1 := congrArg List.getLast? hd
  rw [List.getLast?_append_of_ne_nil _ (by decide),
    List.getLast?_append_of_ne_nil _ (by decide)] at h1
  exact absurd h1 (by decide)

/-! ## Command-batch shapes -/

/-- Detach synthesis on a known head remote: fetch the branch tip, add a
detached worktree. -/
theorem cmdsForExistingRemote_detach (be : String → Bool) (r : git.Remote)
    (pr : github.PullRequest) (opts : worktree.CheckoutOptions) (wt n : String)
    (cmds : List (List String))
    (h : worktree.cmdsForExistingRemote be r pr opts wt n = .ok cmds)
    (hd : opts.detach = true) :
    cmds = [["fetch", r.name, "+refs/heads/" ++ pr.headRef, "--no-tags"],
            ["worktree", "add", "--detach", wt, "FETCH_HEAD"]] := by
  unfold worktree.cmdsForExistingRemote at h
  split at h
  · simp at h
  · split at h
    · simp at h
    · rw [hd] at h
      simp only [if_true] at h
      exact (Except.ok.injEq _ _ |>.mp h).symm

/-- Non-detach synthesis on a known head remote for a new local branch:
fetch, add with `-b`, then the two tracking-config writes. -/
theorem cmdsForExistingRemote_new (be : String → Bool) (r : git.Remote)
    (pr : github.PullRequest) (opts : worktree.CheckoutOptions) (wt n : String)
    (cmds : List (List String))
    (h : worktree.cmdsForExistingRemote be r pr opts wt n = .ok cmds)
    (hd : opts.detach = false) (hbe : be n = false) :
    cmds = [["fetch", r.name,
             "+refs/heads/" ++ pr.headRef ++ ":refs/remotes/" ++ (r.name ++ "/" ++ pr.headRef),
             "--no-tags"],
            ["worktree", "add", "-b", n, wt, r.name ++ "/" ++ pr.headRef],
            ["-C", wt, "config", "branch." ++ n ++ ".remote", r.name],
            ["-C", wt, "config", "branch." ++ n ++ ".merge", "refs/heads/" ++ pr.headRef]] := by
  unfold worktree.cmdsForExistingRemote at h
  split at h
  · simp at h
  · split at h
    · simp at h
    · rw [hd, hbe] at h
      simp only [if_false, Bool.false_eq_true] at h
      exact (Except.ok.injEq _ _ |>.mp h).symm

/-- Detach synthesis without a head remote: fetch the PR ref, add a
detached worktree. -/
theorem cmdsForMissingRemote_detach (pr : github.PullRequest) (base : git.Remote)
    (opts : worktree.CheckoutOptions) (wt n : String) (cmds : List (List String))
    (h : worktree.cmdsForMissingRemote pr base opts wt n = .ok cmds)
    (hd : opts.detach = true) :
    cmds = [["fetch", base.name, "refs/pull/" ++ toString pr.number ++ "/head", "--no-tags"],
            ["worktree", "add", "--detach", wt, "FETCH_HEAD"]] := by
  unfold worktree.cmdsForMissingRemote at h
  split at h
  · simp at h
  · split at h
    · simp at h
    · split at h
      · simp at h
      · rw [hd] at h
        simp only [if_true] at h
        exact (Except.ok.injEq _ _ |>.mp h).symm

/-- Non-detach synthesis without a head remote: a fetch command (which
is never a config write), the worktree add, then the config writes —
with the push-remote write and the head-branch merge ref exactly when
the PR allows maintainer edits and names a head repository. -/
theorem cmdsForMissingRemote_nodetach (pr : github.PullRequest) (base : git.Remote)
    (opts : worktree.CheckoutOptions) (wt n : String) (cmds : List (List String))
    (h : worktree.cmdsForMissingRemote pr base opts wt n = .ok cmds)
    (hd : opts.detach = false) :
    ∃ fc, (∀ key, worktree.isConfigCmd key fc = false) ∧
      worktree.isTrackingCfgCmd fc = false ∧
      ((pr.maintainerCanModify && pr.headRepoName != "") = true ∧
        cmds = [fc, ["worktree", "add", wt, n],
          ["-C", wt, "config", "branch." ++ n ++ ".pushRemote",
           "https://github.com/" ++ pr.headOwnerLogin ++ "/" ++ pr.headRepoName],
          ["-C", wt, "config", "branch." ++ n ++ ".remote", base.name],
          ["-C", wt, "config", "branch." ++ n ++ ".merge", "refs/heads/" ++ pr.headRef]] ∨
       (pr.maintainerCanModify && pr.headRepoName != "") = false ∧
        cmds = [fc, ["worktree", "add", wt, n],
          ["-C", wt, "config", "branch." ++ n ++ ".remote", base.name],
          ["-C", wt, "config", "branch." ++ n ++ ".merge",
           "refs/pull/" ++ toString pr.number ++ "/head"]]) := by
  unfold worktree.cmdsForMissingRemote at h
  split at h
  · simp at h
  · split at h
    · simp at h
    · split at h
      · simp at h
      · rw [hd] at h
        simp only [if_false, Bool.false_eq_true] at h
        refine ⟨if opts.force then
            ["fetch", base.name,
             ("refs/pull/" ++ toString pr.number ++ "/head") ++ ":" ++ n, "--no-tags", "--force"]
          else
            ["fetch", base.name,
             ("refs/pull/" ++ toString pr.number ++ "/head") ++ ":" ++ n, "--no-tags"],
          ?_, ?_, ?_⟩
        · intro key
          by_cases hf : opts.force
          · rw [if_pos hf]; rfl
          · rw [if_neg hf]; rfl
        · by_cases hf : opts.force
          · rw [if_pos hf]; rfl
          · rw [if_neg hf]; rfl
        · split at h
          · left
            refine ⟨by assumption, ?_⟩
            split at h
            · simp at h
            · split at h
              · simp at h
              · split at h
                · simp at h
                · exact (Except.ok.injEq _ _ |>.mp h).symm
          · right
            refine ⟨Bool.eq_false_iff.mpr (by assumption), ?_⟩
            exact (Except.ok.injEq _ _ |>.mp h).symm

/-- A successful dispatch produced its batch through one of the two
synthesis branches, at the effective branch name. -/
theorem cmdQueueFor_ok (remotes : List git.Remote) (repoOwner : String)
    (be : String → Bool) (wt : String) (pr : github.PullRequest)
    (opts : worktree.CheckoutOptions) (base : git.Remote)
    (cmds : List (List String))
    (h : worktree.cmdQueueFor remotes repoOwner be wt pr opts base = .ok cmds) :
    (∃ r, worktree.cmdsForExistingRemote be r pr opts wt
        (worktree.effectiveBranchName pr opts) = .ok cmds) ∨
      worktree.cmdsForMissingRemote pr base opts wt
        (worktree.effectiveBranchName pr opts) = .ok cmds := by
  unfold worktree.cmdQueueFor at h
  split at h
  · split at h
    · simp at h
    · exact Or.inl ⟨_, by rw [← (Except.ok.injEq _ _ |>.mp h)]; assumption⟩
  · split at h
    · simp at h
    · exact Or.inr (by rw [← (Except.ok.injEq _ _ |>.mp h)]; assumption)

/-- Inversion of a successful `Create`: a base remote was found, the
dispatch produced a batch, the submodule commands were appended when
requested, and the metadata writes are those of `storePRMetadata`. -/
theorem Create_ok_inv (remotes : List git.Remote) (repoOwner : String)
    (be : String → Bool) (wt : String) (pr : github.PullRequest)
    (opts : worktree.CheckoutOptions) (cmds : List (List String))
    (meta : List (String × String))
    (h : worktree.Create remotes repoOwner be wt pr opts = .ok (cmds, meta)) :
    ∃ base cmds₀,
      worktree.findBaseRemote remotes = some base ∧
      worktree.cmdQueueFor remotes repoOwner be wt pr opts base = .ok cmds₀ ∧
      cmds = (if opts.recurseSubmodules then cmds₀ ++ worktree.submoduleCmds else cmds₀) ∧
      worktree.storePRMetadata pr = .ok meta := by
  unfold worktree.Create at h
  split at h
  · simp at h
  · split at h
    · simp at h
    · split at h
      · simp at h
      · have hpair := Prod.mk.injEq _ _ _ _ |>.mp (Except.ok.injEq _ _ |>.mp h)
        exact ⟨_, _, by assumption, by assumption,
          hpair.1.symm, by rw [← hpair.2]; assumption⟩

/-- The metadata written by a successful `storePRMetadata`: PR number
and sanitized title, keyed by the PR's head ref. -/
theorem storePRMetadata_ok (pr : github.PullRequest) (meta : List (String × String))
    (h : worktree.storePRMetadata pr = .ok meta) :
    meta = [(worktree.prNumberKey pr.headRef, toString pr.number),
            (worktree.prTitleKey pr.headRef, validate.SanitizeForGitConfig pr.title)] := by
  unfold worktree.storePRMetadata at h
  split at h
  · simp at h
  · split at h
    · simp at h
    · exact (Except.ok.injEq _ _ |>.mp h).symm

theorem cfgCount_append (key : String) (a b : List (List String)) :
    worktree.cfgCount key (a ++ b) =
      worktree.cfgCount key a + worktree.cfgCount key b := by
  simp [worktree.cfgCount, List.filter_append]

theorem hasTrackingCfg_append (a b : List (List String)) :
    worktree.hasTrackingCfg (a ++ b) =
      (worktree.hasTrackingCfg a || worktree.hasTrackingCfg b) :=
  List.any_append

theorem cfgCount_submodule (key : String) :
    worktree.cfgCount key worktree.submoduleCmds = 0 := rfl

theorem hasTrackingCfg_submodule :
    worktree.hasTrackingCfg worktree.submoduleCmds = false := rfl

/-! ## C1 -/

/-- C1: in every successfully synthesized batch, Detach mode emits no
branch-tracking configuration commands, and non-detach mode for a local
branch that does not yet exist emits exactly one
`config branch.<name>.remote` and exactly one `config branch.<name>.merge`
command. -/
theorem C1_synthesizer_tracking_config (remotes : List git.Remote)
    (repoOwner : String) (be : String → Bool) (wt : String)
    (pr : github.PullRequest) (opts : worktree.CheckoutOptions)
    (cmds : List (List String)) (meta : List (String × String))
    (h : worktree.Create remotes repoOwner be wt pr opts = .ok (cmds, meta)) :
    (opts.detach = true → worktree.hasTrackingCfg cmds = false) ∧
    (opts.detach = false →
      be (worktree.effectiveBranchName pr opts) = false →
      worktree.cfgCount
          ("branch." ++ worktree.effectiveBranchName pr opts ++ ".remote") cmds = 1 ∧
      worktree.cfgCount
          ("branch." ++ worktree.effectiveBranchName pr opts ++ ".merge") cmds = 1) := by
  obtain ⟨base, cmds₀, hbase, hq, hcmds, hmeta⟩ := Create_ok_inv _ _ _ _ _ _ _ _ h
  subst hcmds
  constructor
  · intro hd
    have h0 : worktree.hasTrackingCfg cmds₀ = false := by
      rcases cmdQueueFor_ok _ _ _ _ _ _ _ _ hq with ⟨r, hex⟩ | hmis
      · rw [cmdsForExistingRemote_detach _ _ _ _ _ _ _ hex hd]; rfl
      · rw [cmdsForMissingRemote_detach _ _ _ _ _ _ hmis hd]; rfl
    cases hrs : opts.recurseSubmodules
    · simp [hrs, h0]
    · simp [hrs, hasTrackingCfg_append, h0, hasTrackingCfg_submodule]
  · intro hd hbe
    have hneMR : (("branch." ++ worktree.effectiveBranchName pr opts ++ ".merge") ==
        ("branch." ++ worktree.effectiveBranchName pr opts ++ ".remote")) = false :=
      beq_string_false (key_suffix_ne _ (by decide))
    have hneRM : (("branch." ++ worktree.effectiveBranchName pr opts ++ ".remote") ==
        ("branch." ++ worktree.effectiveBranchName pr opts ++ ".merge")) = false :=
      beq_string_false (key_suffix_ne _ (by decide))
    have hnePR : (("branch." ++ worktree.effectiveBranchName pr opts ++ ".pushRemote") ==
        ("branch." ++ worktree.effectiveBranchName pr opts ++ ".remote")) = false :=
      beq_string_false (key_suffix_ne _ (by decide))
    have hnePM : (("branch." ++ worktree.effectiveBranchName pr opts ++ ".pushRemote") ==
        ("branch." ++ worktree.effectiveBranchName pr opts ++ ".merge")) = false :=
      beq_string_false (key_suffix_ne _ (by decide))
    have h0 :
        worktree.cfgCount
            ("branch." ++ worktree.effectiveBranchName pr opts ++ ".remote") cmds₀ = 1 ∧
        worktree.cfgCount
            ("branch." ++ worktree.effectiveBranchName pr opts ++ ".merge") cmds₀ = 1 := by
      rcases cmdQueueFor_ok _ _ _ _ _ _ _ _ hq with ⟨r, hex⟩ | hmis
      · rw [cmdsForExistingRemote_new _ _ _ _ _ _ _ hex hd hbe]
        constructor
        · simp [worktree.cfgCount, worktree.isConfigCmd, List.filter, hneMR]
        · simp [worktree.cfgCount, worktree.isConfigCmd, List.filter, hneRM]
      · obtain ⟨fc, hfc, hfcT, hcases⟩ := cmdsForMissingRemote_nodetach _ _ _ _ _ _ hmis hd
        have hstep : ∀ (key : String) (rest : List (List String)),
            worktree.cfgCount key (fc :: rest) = worktree.cfgCount key rest := by
          intro key rest
          unfold worktree.cfgCount
          rw [List.filter_cons, hfc]
          simp
        rcases hcases with ⟨hcond, rfl⟩ | ⟨hcond, rfl⟩
        · constructor
          · rw [hstep]
            simp [worktree.cfgCount, worktree.isConfigCmd, List.filter, hneMR, hnePR]
          · rw [hstep]
            simp [worktree.cfgCount, worktree.isConfigCmd, List.filter, hneRM, hnePM]
        · constructor
          · rw [hstep]
            simp [worktree.cfgCount, worktree.isConfigCmd, List.filter, hneMR]
          · rw [hstep]
            simp [worktree.cfgCount, worktree.isConfigCmd, List.filter, hneRM]
    cases hrs : opts.recurseSubmodules
    · simpa [hrs] using h0
    · simpa [hrs, cfgCount_append, cfgCount_submodule] using h0

/-- C1 witness at concrete inputs: a detach batch with no tracking
configuration, and a non-detach batch with exactly one remote and one
merge config command. -/
theorem C1_synthesizer_tracking_config_witness :
    worktree.hasTrackingCfg
        [["fetch", "origin", "+refs/heads/feature", "--no-tags"],
         ["worktree", "add", "--detach", "wt", "FETCH_HEAD"]] = false ∧
    (worktree.cfgCount "branch.feature.remote"
        [["fetch", "origin", "+refs/heads/feature:refs/remotes/origin/feature", "--no-tags"],
         ["worktree", "add", "-b", "feature", "wt", "origin/feature"],
         ["-C", "wt", "config", "branch.feature.remote", "origin"],
         ["-C", "wt", "config", "branch.feature.merge", "refs/heads/feature"]] = 1 ∧
     worktree.cfgCount "branch.feature.merge"
        [["fetch", "origin", "+refs/heads/feature:refs/remotes/origin/feature", "--no-tags"],
         ["worktree", "add", "-b", "feature", "wt", "origin/feature"],
         ["-C", "wt", "config", "branch.feature.remote", "origin"],
         ["-C", "wt", "config", "branch.feature.merge", "refs/heads/feature"]] = 1) :=
  ⟨(C1_synthesizer_tracking_config [originRemote] "owner" (fun _ => false) "wt"
      samplePR detachOpts _ _ rfl).1 rfl,
   (C1_synthesizer_tracking_config [originRemote] "owner" (fun _ => false) "wt"
      samplePR plainOpts _ _ rfl).2 rfl rfl⟩

/-! ## C3 -/

/-- C3: in the no-head-remote branch without Detach, a PR that allows
maintainer edits and names a head repository gets a
`branch.<name>.pushRemote` write of `https://github.com/<owner>/<repo>`
and a merge ref of `refs/heads/<head-branch>`; otherwise the merge ref
is `refs/pull/<number>/head`; the branch's remote is the base remote's
name in both cases. -/
theorem C3_missing_remote_maintainer_config (pr : github.PullRequest)
    (base : git.Remote) (opts : worktree.CheckoutOptions) (wt n : String)
    (cmds : List (List String)) (hd : opts.detach = false)
    (h : worktree.cmdsForMissingRemote pr base opts wt n = .ok cmds) :
    (pr.maintainerCanModify = true ∧ pr.headRepoName ≠ "" →
      ["-C", wt, "config", "branch." ++ n ++ ".pushRemote",
       "https://github.com/" ++ pr.headOwnerLogin ++ "/" ++ pr.headRepoName] ∈ cmds ∧
      ["-C", wt, "config", "branch." ++ n ++ ".merge",
       "refs/heads/" ++ pr.headRef] ∈ cmds) ∧
    (¬(pr.maintainerCanModify = true ∧ pr.headRepoName ≠ "") →
      ["-C", wt, "config", "branch." ++ n ++ ".merge",
       "refs/pull/" ++ toString pr.number ++ "/head"] ∈ cmds) ∧
    ["-C", wt, "config", "branch." ++ n ++ ".remote", base.name] ∈ cmds := by
  obtain ⟨fc, hfc, hfcT, hcases⟩ := cmdsForMissingRemote_nodetach _ _ _ _ _ _ h hd
  rcases hcases with ⟨hcond, rfl⟩ | ⟨hcond, rfl⟩
  · refine ⟨fun _ => ⟨by simp, by simp⟩, fun hcontra => absurd ?_ hcontra, by simp⟩
    rw [Bool.and_eq_true, bne_iff_ne] at hcond
    exact hcond
  · refine ⟨fun hc => ?_, fun _ => by simp, by simp⟩
    have hc' : (pr.maintainerCanModify && pr.headRepoName != "") = true := by
      rw [Bool.and_eq_true, bne_iff_ne]
      exact hc
    rw [hcond] at hc'
    exact absurd hc' Bool.false_ne_true

/-- C3 witness: a concrete fork PR with maintainer edits allowed gets
the push-remote and head-branch merge configuration. -/
theorem C3_missing_remote_maintainer_config_witness :
    ["-C", "wt", "config", "branch.fix.pushRemote",
     "https://github.com/alice/repo"] ∈
      [["fetch", "origin", "refs/pull/7/head:fix", "--no-tags"],
       ["worktree", "add", "wt", "fix"],
       ["-C", "wt", "config", "branch.fix.pushRemote", "https://github.com/alice/repo"],
       ["-C", "wt", "config", "branch.fix.remote", "origin"],
       ["-C", "wt", "config", "branch.fix.merge", "refs/heads/fix"]] :=
  ((C3_missing_remote_maintainer_config sampleForkPR originRemote plainOpts
      "wt" "fix" _ rfl rfl).1 ⟨rfl, by decide⟩).1

/-! ## C4 -/

/-- C4 counterexample: with Detach set, `Create` still writes the
PR-number and PR-title metadata keys after a successful batch — the
claim that no metadata keys are written is false at this input. -/
theorem C4_counterexample :
    (worktree.Create [originRemote] "owner" (fun _ => false) "wt"
        samplePR detachOpts).map (fun res => res.2.map Prod.fst) =
      .ok ["branch.feature.gh-worktree-pr-number",
           "branch.feature.gh-worktree-pr-title"] := rfl

/-- C4 (amended): with Detach set, a successful `Create` emits no
branch-tracking configuration commands, but it still writes the
PR-number and PR-title metadata keys — keyed by the PR's head ref —
after the batch executes. -/
theorem C4_detach_no_tracking_but_metadata (remotes : List git.Remote)
    (repoOwner : String) (be : String → Bool) (wt : String)
    (pr : github.PullRequest) (opts : worktree.CheckoutOptions)
    (cmds : List (List String)) (meta : List (String × String))
    (h : worktree.Create remotes repoOwner be wt pr opts = .ok (cmds, meta))
    (hd : opts.detach = true) :
    worktree.hasTrackingCfg cmds = false ∧
    meta = [(worktree.prNumberKey pr.headRef, toString pr.number),
            (worktree.prTitleKey pr.headRef,
             validate.SanitizeForGitConfig pr.title)] :=
  ⟨(C1_synthesizer_tracking_config _ _ _ _ _ _ _ _ h).1 hd,
   storePRMetadata_ok _ _ (Create_ok_inv _ _ _ _ _ _ _ _ h).choose_spec.choose_spec.2.2.2⟩

/-- C4 witness: the detach batch at a concrete input has no tracking
configuration and the metadata written is the PR number and sanitized
title under the head ref. -/
theorem C4_detach_no_tracking_but_metadata_witness :
    worktree.hasTrackingCfg
        [["fetch", "origin", "+refs/heads/feature", "--no-tags"],
         ["worktree", "add", "--detach", "wt", "FETCH_HEAD"]] = false ∧
    [("branch.feature.gh-worktree-pr-number", "1"),
     ("branch.feature.gh-worktree-pr-title", "Example title")] =
      [(worktree.prNumberKey "feature", toString (1 : Int)),
       (worktree.prTitleKey "feature",
        validate.SanitizeForGitConfig "Example title")] :=
  C4_detach_no_tracking_but_metadata [originRemote] "owner" (fun _ => false)
    "wt" samplePR detachOpts _ _ rfl rfl

/-! ## C10 -/

/-- C10: when the BranchName option overrides the head ref, `Create`
still persists the PR metadata under keys derived from the head ref,
never under the overridden branch name the worktree checks out. -/
theorem C10_metadata_keyed_by_head_ref (remotes : List git.Remote)
    (repoOwner : String) (be : String → Bool) (wt : String)
    (pr : github.PullRequest) (opts : worktree.CheckoutOptions)
    (cmds : List (List String)) (meta : List (String × String))
    (_hbn : opts.branchName ≠ "") (hne : opts.branchName ≠ pr.headRef)
    (h : worktree.Create remotes repoOwner be wt pr opts = .ok (cmds, meta)) :
    meta.map Prod.fst =
      [worktree.prNumberKey pr.headRef, worktree.prTitleKey pr.headRef] ∧
    worktree.prNumberKey opts.branchName ∉ meta.map Prod.fst ∧
    worktree.prTitleKey opts.branchName ∉ meta.map Prod.fst := by
  have hmeta := storePRMetadata_ok _ _
    (Create_ok_inv _ _ _ _ _ _ _ _ h).choose_spec.choose_spec.2.2.2
  subst hmeta
  refine ⟨by simp, ?_, ?_⟩
  · simp only [List.map_cons, List.map_nil, List.mem_cons, List.not_mem_nil]
    rintro (hc | hc | hc)
    · exact key_branch_ne ".gh-worktree-pr-number" hne hc
    · exact prNumberKey_ne_prTitleKey _ _ hc
    · exact hc
  · simp only [List.map_cons, List.map_nil, List.mem_cons, List.not_mem_nil]
    rintro (hc | hc | hc)
    · exact prNumberKey_ne_prTitleKey _ _ hc.symm
    · exact key_branch_ne ".gh-worktree-pr-title" hne hc
    · exact hc

/-- C10 witness: at a concrete input with branch name `local-name`
overriding head ref `feature`, metadata is keyed by `feature`. -/
theorem C10_metadata_keyed_by_head_ref_witness :
    [("branch.feature.gh-worktree-pr-number", "1"),
     ("branch.feature.gh-worktree-pr-title", "Example title")].map Prod.fst =
      [worktree.prNumberKey "feature", worktree.prTitleKey "feature"] ∧
    worktree.prNumberKey "local-name" ∉
      [("branch.feature.gh-worktree-pr-number", "1"),
       ("branch.feature.gh-worktree-pr-title", "Example title")].map Prod.fst ∧
    worktree.prTitleKey "local-name" ∉
      [("branch.feature.gh-worktree-pr-number", "1"),
       ("branch.feature.gh-worktree-pr-title", "Example title")].map Prod.fst :=
  C10_metadata_keyed_by_head_ref [originRemote] "owner" (fun _ => false) "wt"
    samplePR renameOpts _ _ (by decide) (by decide) rfl

/-! ## C2 -/

/-- C2: base-remote selection returns the remote named `upstream` when
one exists, else the one named `origin`, else the first remote; and
`Create` fails with no batch when no remotes are configured. -/
theorem C2_base_remote_selection (remotes : List git.Remote) :
    ((remotes.any fun r => r.name == "upstream") = true →
      worktree.findBaseRemote remotes =
        remotes.find? (fun r => r.name == "upstream") ∧
      ∀ r, worktree.findBaseRemote remotes = some r → r.name = "upstream") ∧
    ((remotes.any fun r => r.name == "upstream") = false →
      (remotes.any fun r => r.name == "origin") = true →
      worktree.findBaseRemote remotes =
        remotes.find? (fun r => r.name == "origin") ∧
      ∀ r, worktree.findBaseRemote remotes = some r → r.name = "origin") ∧
    ((remotes.any fun r => r.name == "upstream") = false →
      (remotes.any fun r => r.name == "origin") = false →
      worktree.findBaseRemote remotes = remotes.head?) ∧
    (remotes = [] → ∀ repoOwner be wt pr opts,
      worktree.Create remotes repoOwner be wt pr opts =
        .error "no suitable remote found") := by
  refine ⟨?_, ?_, ?_, ?_⟩
  · intro hany
    have hsome : (remotes.find? fun r => r.name == "upstream").isSome := by
      rw [List.find?_isSome]
      obtain ⟨x, hx, hpx⟩ := List.any_eq_true.mp hany
      exact ⟨x, hx, hpx⟩
    obtain ⟨r₀, heq⟩ := Option.isSome_iff_exists.mp hsome
    have hfb : worktree.findBaseRemote remotes = some r₀ := by
      unfold worktree.findBaseRemote
      rw [heq]
    refine ⟨by rw [hfb, heq], fun r hr => ?_⟩
    rw [hfb] at hr
    have hname := List.find?_some heq
    rw [beq_iff_eq] at hname
    rw [← Option.some.injEq _ _ |>.mp hr]
    exact hname
  · intro hup hor
    have hnone : (remotes.find? fun r => r.name == "upstream") = none :=
      List.find?_eq_none.mpr fun x hx hpx => by
        simp [List.any_eq_true] at hup
        exact absurd (beq_iff_eq.mp hpx) (hup x hx)
    have hsome : (remotes.find? fun r => r.name == "origin").isSome := by
      rw [List.find?_isSome]
      obtain ⟨x, hx, hpx⟩ := List.any_eq_true.mp hor
      exact ⟨x, hx, hpx⟩
    obtain ⟨r₀, heq⟩ := Option.isSome_iff_exists.mp hsome
    have hfb : worktree.findBaseRemote remotes = some r₀ := by
      unfold worktree.findBaseRemote
      rw [hnone, heq]
    refine ⟨by rw [hfb, heq], fun r hr => ?_⟩
    rw [hfb] at hr
    have hname := List.find?_some heq
    rw [beq_iff_eq] at hname
    rw [← Option.some.injEq _ _ |>.mp hr]
    exact hname
  · intro hup hor
    have hnone1 : (remotes.find? fun r => r.name == "upstream") = none :=
      List.find?_eq_none.mpr fun x hx hpx => by
        simp [List.any_eq_true] at hup
        exact absurd (beq_iff_eq.mp hpx) (hup x hx)
    have hnone2 : (remotes.find? fun r => r.name == "origin") = none :=
      List.find?_eq_none.mpr fun x hx hpx => by
        simp [List.any_eq_true] at hor
        exact absurd (beq_iff_eq.mp hpx) (hor x hx)
    unfold worktree.findBaseRemote
    rw [hnone1, hnone2]
  · rintro rfl repoOwner be wt pr opts
    rfl

/-- C2 witness: with `{origin, upstream}` the base remote is
`upstream`; with `{origin}` it is `origin`; with no remotes `Create`
fails. -/
theorem C2_base_remote_selection_witness :
    worktree.findBaseRemote [originRemote, upstreamRemote] = some upstreamRemote ∧
    worktree.findBaseRemote [originRemote] = some originRemote ∧
    worktree.Create [] "owner" (fun _ => false) "wt" samplePR plainOpts =
      .error "no suitable remote found" :=
  ⟨((C2_base_remote_selection [originRemote, upstreamRemote]).1 (by decide)).1.trans rfl,
   ((C2_base_remote_selection [originRemote]).2.1 (by decide) (by decide)).1.trans rfl,
   (C2_base_remote_selection []).2.2.2 rfl "owner" (fun _ => false) "wt"
     samplePR plainOpts⟩

/-! ## C5 -/

theorem find?_filter_ne (s : List (String × String)) (k k' : String) (h : k' ≠ k) :
    (s.filter fun kv => kv.1 != k).find? (fun kv => kv.1 == k') =
      s.find? (fun kv => kv.1 == k') := by
  induction s with
  | nil => rfl
  | cons a t ih =>
    by_cases hk' : (a.1 == k') = true
    · have hkne : (a.1 != k) = true := by
        rw [bne_iff_ne]
        rw [beq_iff_eq] at hk'
        rw [hk']
        exact h
      rw [List.filter_cons, if_pos hkne, List.find?_cons, List.find?_cons, hk']
    · rw [Bool.not_eq_true] at hk'
      by_cases hk : (a.1 != k) = true
      · rw [List.filter_cons, if_pos hk, List.find?_cons, List.find?_cons, hk']
        exact ih
      · rw [Bool.not_eq_true] at hk
        rw [List.filter_cons, if_neg (by rw [hk]; exact Bool.false_ne_true),
          List.find?_cons, hk']
        exact ih

theorem lookupConfig_set_same (s : git.ConfigStore) (k v : String) :
    git.lookupConfig (git.SetConfig s k v) k = some v := by
  unfold git.lookupConfig git.SetConfig
  rw [List.find?_cons]
  simp

theorem lookupConfig_set_other (s : git.ConfigStore) (k v k' : String)
    (h : k' ≠ k) :
    git.lookupConfig (git.SetConfig s k v) k' = git.lookupConfig s k' := by
  unfold git.lookupConfig git.SetConfig
  rw [List.find?_cons, show ((k, v).1 == k') = false from beq_string_false (Ne.symm h),
    find?_filter_ne s k k' h]

/-- C5: promotion fails when the branch's worktree type resolves to
`pr` — in particular when the type key is absent but a non-empty
PR-number key is present — and otherwise, for type `branch` or unset,
succeeds and writes all three metadata keys. -/
theorem C5_promotion (store : git.ConfigStore) (b : String) (num : Int)
    (title : String) (hname : validate.BranchName b = .ok ()) :
    (worktree.GetWorktreeType store b = "pr" →
      worktree.promoteRun store b num title =
        .error ("branch " ++ b ++ " is already a PR worktree")) ∧
    (git.GetConfig store (worktree.typeKey b) = none →
      ∀ v, git.GetConfig store (worktree.prNumberKey b) = some v → v ≠ "" →
        worktree.GetWorktreeType store b = "pr") ∧
    (worktree.GetWorktreeType store b = "branch" ∨
        worktree.GetWorktreeType store b = "" →
      worktree.promoteRun store b num title =
        .ok (worktree.PromoteToPR store b num title) ∧
      git.lookupConfig (worktree.PromoteToPR store b num title)
          (worktree.typeKey b) = some "pr" ∧
      git.lookupConfig (worktree.PromoteToPR store b num title)
          (worktree.prNumberKey b) = some (toString num) ∧
      git.lookupConfig (worktree.PromoteToPR store b num title)
          (worktree.prTitleKey b) = some title) := by
  have htypeNum : worktree.typeKey b ≠ worktree.prNumberKey b :=
    key_suffix_ne b (by decide)
  have htypeTitle : worktree.typeKey b ≠ worktree.prTitleKey b :=
    key_suffix_ne b (by decide)
  have hnumTitle : worktree.prNumberKey b ≠ worktree.prTitleKey b :=
    prNumberKey_ne_prTitleKey b b
  refine ⟨?_, ?_, ?_⟩
  · intro htype
    unfold worktree.promoteRun
    rw [hname]
    simp only [htype, beq_self_eq_true, if_true]
  · intro htype v hnum hv
    unfold worktree.GetWorktreeType
    rw [htype, hnum]
    exact if_pos hv
  · intro htype
    have hne : (worktree.GetWorktreeType store b == "pr") = false := by
      rcases htype with h | h <;> rw [h] <;> decide
    refine ⟨?_, ?_, ?_, ?_⟩
    · unfold worktree.promoteRun
      rw [hname]
      simp only [hne, Bool.false_eq_true, if_false]
    · unfold worktree.PromoteToPR
      rw [lookupConfig_set_other _ _ _ _ htypeTitle,
        lookupConfig_set_other _ _ _ _ htypeNum, lookupConfig_set_same]
    · unfold worktree.PromoteToPR
      rw [lookupConfig_set_other _ _ _ _ hnumTitle, lookupConfig_set_same]
    · unfold worktree.PromoteToPR
      rw [lookupConfig_set_same]

/-- C5 witness: promoting `feat` with no persisted metadata succeeds;
promoting it when the type key already says `pr` fails. -/
theorem C5_promotion_witness :
    worktree.promoteRun [] "feat" 5 "Title" =
      .ok (worktree.PromoteToPR [] "feat" 5 "Title") ∧
    worktree.promoteRun [("branch.feat.gh-worktree-type", "pr")] "feat" 5 "Title" =
      .error ("branch " ++ "feat" ++ " is already a PR worktree") :=
  ⟨((C5_promotion [] "feat" 5 "Title" rfl).2.2 (Or.inr rfl)).1,
   (C5_promotion [("branch.feat.gh-worktree-type", "pr")] "feat" 5 "Title"
     rfl).1 rfl⟩

/-! ## C7 -/

theorem checkedPR_ok (msg : String) (x : Option Int) (n : Int) :
    github.checkedPR msg x = .ok n ↔
      x = some n ∧ validate.PRNumber n = .ok () := by
  unfold github.checkedPR
  cases x with
  | none => simp
  | some m =>
    cases hv : validate.PRNumber m with
    | error e =>
      simp only [hv, reduceCtorEq, false_iff, Option.some.injEq, not_and]
      rintro rfl hok
      rw [hv] at hok
      exact absurd hok (by simp)
    | ok u =>
      cases u
      simp only [hv, Except.ok.injEq, Option.some.injEq]
      constructor
      · rintro rfl
        exact ⟨rfl, hv⟩
      · rintro ⟨rfl, -⟩
        rfl

/-- C7: the identifier parser maps `"123"` to 123 and the HTTPS pull
URL to 456; it rejects a non-numeric URL tail, `0`, `-1`, `9999999` and
a non-HTTPS URL; and in general it returns a PR number exactly for a
bare in-range integer, or for a URL that passes the URL validator and
whose single `/pull/` split tail is an in-range integer. -/
theorem C7_identifier_parsing :
    github.ParsePRNumber "123" = .ok 123 ∧
    github.ParsePRNumber "https://github.com/o/r/pull/456" = .ok 456 ∧
    github.ParsePRNumber "https://github.com/o/r/pull/abc" =
      .error "invalid PR number in URL" ∧
    github.ParsePRNumber "0" = .error "invalid PR number: 0" ∧
    github.ParsePRNumber "-1" = .error "invalid PR number: -1" ∧
    github.ParsePRNumber "9999999" = .error "invalid PR number: 9999999" ∧
    github.ParsePRNumber "http://github.com/o/r/pull/123" =
      .error "invalid URL: only HTTPS URLs are allowed" ∧
    ∀ s n, github.ParsePRNumber s = .ok n ↔
      ((goContains s "/pull/" = false ∧
        goAtoi (goTrim s) = some n ∧ validate.PRNumber n = .ok ()) ∨
       (goContains s "/pull/" = true ∧ validate.URL s = .ok () ∧
        ∃ a b, goSplit s "/pull/" = [a, b] ∧
          goAtoi (goTrim b) = some n ∧ validate.PRNumber n = .ok ())) := by
  refine ⟨rfl, rfl, rfl, rfl, rfl, rfl, rfl, ?_⟩
  intro s n
  unfold github.ParsePRNumber
  by_cases hc : goContains s "/pull/" = true
  · simp only [hc, if_true]
    cases hu : validate.URL s with
    | error e => simp [hc, hu]
    | ok u =>
      cases u
      rcases hsplit : goSplit s "/pull/" with _ | ⟨a, _ | ⟨b, _ | ⟨c, rest⟩⟩⟩
      · simp [hc, hu, hsplit]
      · simp [hc, hu, hsplit]
      · rw [checkedPR_ok]
        simp [hc, hu, hsplit]
        constructor
        · rintro ⟨h1, h2⟩
          exact ⟨a, b, ⟨rfl, rfl⟩, h1, h2⟩
        · rintro ⟨a', b', ⟨rfl, rfl⟩, h1, h2⟩
          exact ⟨h1, h2⟩
      · simp [hc, hu, hsplit]
  · rw [Bool.not_eq_true] at hc
    simp only [hc, Bool.false_eq_true, if_false]
    rw [checkedPR_ok]
    simp [hc]

/-! ## C6 -/

theorem goHasPrefix_append (pre rest : String) :
    goHasPrefix (pre ++ rest) pre = true := by
  show pre.data.isPrefixOf (pre ++ rest).data = true
  rw [ List.isPrefixOf_iff_prefix, String.data_append]
  exact List.prefix_append _ _

/-- A basename of the form `<repo>-pr<suffix>` (non-empty suffix) makes
`scanPRSuffix` scan exactly that suffix. -/
theorem scanPRSuffix_of_base (repoName suffix : String) (hs : suffix ≠ "") :
    worktree.scanPRSuffix repoName ((repoName ++ "-pr") ++ suffix) =
      goScanInt suffix := by
  unfold worktree.scanPRSuffix
  have hne : suffix.data ≠ [] := fun hnil => hs (String.ext_iff.mpr (by rw [hnil]))
  have hlen : (repoName ++ "-pr").data.length <
      ((repoName ++ "-pr") ++ suffix).data.length := by
    simp only [String.data_append, List.length_append]
    have : suffix.data.length ≠ 0 := fun h0 => hne (List.length_eq_zero.mp h0)
    omega
  rw [if_pos ⟨goHasPrefix_append _ _, hlen⟩]
  have hdrop : ((repoName ++ "-pr") ++ suffix).data.drop
      (repoName ++ "-pr").data.length = suffix.data := by
    rw [String.data_append]
    exact List.drop_left _ _
  rw [hdrop]

/-- When both the type key and the PR-number key are absent, the
worktree type resolves to unset. -/
theorem GetWorktreeType_unset (store : git.ConfigStore) (b : String)
    (h1 : git.GetConfig store (worktree.typeKey b) = none)
    (h2 : git.GetConfig store (worktree.prNumberKey b) = none) :
    worktree.GetWorktreeType store b = "" := by
  unfold worktree.GetWorktreeType
  rw [h1, h2]

/-- C6 counterexample: the worktree at `/home/u/my-repo-pr5x` — whose
basename starts with `my-repo-` but does not match the
`<repo>-pr<digits>` pattern — is, with no persisted metadata, excluded
from the branch listing (the claim classifies it as a branch worktree)
and instead classified as PR worktree number 5, because
`fmt.Sscanf("5x", "%d", _)` scans the leading `5`. -/
theorem C6_counterexample :
    worktree.ListBranchWorktrees (fun _ => none) [] "/home/u/my-repo" "my-repo"
        [mainWorktreeInfo, oddNamedWorktreeInfo] = [] ∧
    worktree.ListPRWorktrees (fun _ => none) [] "/home/u/my-repo" "my-repo"
        [mainWorktreeInfo, oddNamedWorktreeInfo] =
      [{ oddNamedWorktreeInfo with prNumber := 5, title := "" }] :=
  ⟨rfl, rfl⟩

/-- C6 (amended): a worktree under the main worktree's parent whose
basename is `<repo>-pr<suffix>` with a suffix that scans as a number
(in particular, `<repo>-pr<digits>`) is listed as a PR worktree with
the scanned number even with no persisted metadata; a worktree whose
basename starts with `<repo>-` is listed as a branch worktree when its
persisted type is `branch` or unset, provided the text after
`<repo>-pr` does not scan as a leading number. -/
theorem C6_worktree_classification (resolve : String → Option String)
    (store : git.ConfigStore) (gitRoot repoName : String)
    (wts : List worktree.Info) (wt : worktree.Info)
    (hmem : wt ∈ wts) (hnotmain : wt.path ≠ gitRoot)
    (hparent : worktree.resolveDir resolve (worktree.goDir wt.path) =
      worktree.resolveDir resolve (worktree.goDir gitRoot)) :
    (∀ suffix k, worktree.goBase wt.path = (repoName ++ "-pr") ++ suffix →
      suffix ≠ "" → goScanInt suffix = some k →
      git.GetConfig store (worktree.typeKey wt.branch) = none →
      git.GetConfig store (worktree.prNumberKey wt.branch) = none →
      git.GetConfig store (worktree.prTitleKey wt.branch) = none →
      { wt with prNumber := k, title := "" } ∈
        worktree.ListPRWorktrees resolve store gitRoot repoName wts) ∧
    ((worktree.scanPRSuffix repoName (worktree.goBase wt.path)).isSome = false →
      goHasPrefix (worktree.goBase wt.path) (repoName ++ "-") = true →
      (worktree.GetWorktreeType store wt.branch = "branch" ∨
        worktree.GetWorktreeType store wt.branch = "") →
      wt ∈ worktree.ListBranchWorktrees resolve store gitRoot repoName wts) := by
  constructor
  · intro suffix k hbase hsuf hscan htype hnum htitle
    unfold worktree.ListPRWorktrees
    rw [List.mem_filterMap]
    refine ⟨wt, hmem, ?_⟩
    have hscan' : worktree.scanPRSuffix repoName (worktree.goBase wt.path) = some k := by
      rw [hbase, scanPRSuffix_of_base _ _ hsuf, hscan]
    unfold worktree.prInfoFor
    rw [hparent]
    simp [beq_string_false hnotmain, hscan', GetWorktreeType_unset _ _ htype hnum,
      worktree.GetPRTitle, htitle, worktree.enrichedPRNumber, hnum]
  · intro hscanF hpre htype
    unfold worktree.ListBranchWorktrees
    rw [List.mem_filterMap]
    refine ⟨wt, hmem, ?_⟩
    unfold worktree.branchInfoFor
    rw [hparent]
    rcases htype with h | h <;>
      simp [beq_string_false hnotmain, hscanF, hpre, h]

/-- C6 witness: `my-repo-pr42` with no metadata is listed as PR 42;
`my-repo-feature-x` with no metadata is listed as a branch worktree. -/
theorem C6_worktree_classification_witness :
    { prNamedWorktreeInfo with prNumber := 42, title := "" } ∈
      worktree.ListPRWorktrees (fun _ => none) [] "/home/u/my-repo" "my-repo"
        [mainWorktreeInfo, prNamedWorktreeInfo] ∧
    branchNamedWorktreeInfo ∈
      worktree.ListBranchWorktrees (fun _ => none) [] "/home/u/my-repo" "my-repo"
        [mainWorktreeInfo, branchNamedWorktreeInfo] :=
  ⟨(C6_worktree_classification (fun _ => none) [] "/home/u/my-repo" "my-repo"
      [mainWorktreeInfo, prNamedWorktreeInfo] prNamedWorktreeInfo
      (by simp) (by decide) rfl).1 "42" 42 rfl (by decide) rfl rfl rfl rfl,
   (C6_worktree_classification (fun _ => none) [] "/home/u/my-repo" "my-repo"
      [mainWorktreeInfo, branchNamedWorktreeInfo] branchNamedWorktreeInfo
      (by simp) (by decide) rfl).2 rfl rfl (Or.inr rfl)⟩

end GhWorktree
